import Mathlib

/-!
Verification development for the in-process schema-typed tabular store
implemented in `GraphQl.py` (the `DynamicTable` and `Database` classes and
the `convert_values` utility).  The Python code is shallowly embedded:

* a Python `dict` (which preserves insertion order) is an association list
  `List (String × Value)` with unique keys, mutated by `dictSet` / `dictDel`;
* Python runtime values relevant to the store are `str`, `int`, `bool` and
  `None`, embedded as the inductive `Value`;
* a column type is one of the Python type objects `str`, `int`, `bool`,
  embedded as `ColumnType`;
* `isinstance` is embedded by `isinst`; note that in Python `bool` is a
  subclass of `int`, so `isinstance(True, int)` is `true`;
* Python `==` on store values is embedded by `pyEq`; note `True == 1` and
  `False == 0` in Python;
* an operation that can raise mutates state up to the raise point, so each
  table operation returns `Except (Err × DynamicTable) DynamicTable`: on
  error the carried table is the state left behind at the raise;
* strings are modelled over their character lists; `str.lower` and
  `str.strip` are modelled per ASCII character, and `int(text)` by `pyInt`
  (strip, optional sign, decimal digits with single underscores between
  digits).
-/

/-- The distinct raise sites of the Python source, one constructor each
(the source raises `ValueError` / `IndexError` / `KeyError` with
distinguishing messages). -/
inductive Err where
  | duplicateColumn : Err
  | unknownColumn : Err
  | arityMismatch : Err
  | typeMismatch (column : String) : Err
  | indexOutOfRange : Err
  | keyError : Err
  | duplicateTable : Err
  | unknownTable : Err
  | conversionError : Err
deriving DecidableEq

/-- The Python type objects used as column types in the source:
`str`, `int`, `bool`. -/
inductive ColumnType where
  | str : ColumnType
  | int : ColumnType
  | bool : ColumnType
deriving DecidableEq

/-- Python runtime values stored in rows: strings, integers, booleans and
`None` (used by `add_column` as the fill value). -/
inductive Value where
  | str (s : String) : Value
  | int (n : Int) : Value
  | bool (b : Bool) : Value
  | none : Value
deriving DecidableEq

/-- Python `isinstance(value, column_type)`.  `bool` is a subclass of
`int` in Python, so a boolean satisfies the `int` check. -/
def isinst : Value → ColumnType → Bool
  | Value.str _, ColumnType.str => true
  | Value.int _, ColumnType.int => true
  | Value.bool _, ColumnType.int => true
  | Value.bool _, ColumnType.bool => true
  | _, _ => false

/-- Python `==` on store values: strings by content, numbers by value with
`True == 1` and `False == 0`, `None` only equal to `None`; values of
unrelated kinds compare unequal. -/
def pyEq : Value → Value → Bool
  | Value.str s, Value.str t => s = t
  | Value.int m, Value.int n => m = n
  | Value.bool a, Value.bool b => a = b
  | Value.bool a, Value.int n => (if a then (1 : Int) else 0) = n
  | Value.int n, Value.bool a => n = (if a then (1 : Int) else 0)
  | Value.none, Value.none => true
  | _, _ => false

/-- Canonical form of a value under Python equality: booleans collapse to
their integer value. -/
inductive Canon where
  | str (s : String) : Canon
  | int (n : Int) : Canon
  | none : Canon
deriving DecidableEq

/-- Map a value to its canonical form under Python equality. -/
def canon : Value → Canon
  | Value.str s => Canon.str s
  | Value.int n => Canon.int n
  | Value.bool b => Canon.int (if b then 1 else 0)
  | Value.none => Canon.none

/-- A row: a Python dict from column name to value, with insertion order. -/
abbrev Row := List (String × Value)

/-- Keys of a dict, in order. -/
def dictKeys (d : Row) : List String := d.map Prod.fst

/-- Python `key in dict`. -/
def dictHasKey (d : Row) (k : String) : Bool := (dictKeys d).contains k

/-- Python `dict[key]` as an option (a miss raises `KeyError` at call
sites). -/
def dictGet : Row → String → Option Value
  | [], _ => Option.none
  | (k', v) :: d, k => if k' = k then some v else dictGet d k

/-- Python `dict[key] = value`: overwrite in place if present, else append. -/
def dictSet : Row → String → Value → Row
  | [], k, v => [(k, v)]
  | (k', v') :: d, k, v =>
      if k' = k then (k, v) :: d else (k', v') :: dictSet d k v

/-- Python `del dict[key]` (on a real dict the key occurs at most once). -/
def dictDel (d : Row) (k : String) : Row := d.filter (fun p => p.1 ≠ k)

/-- Python `dict(pairs)`: insert the pairs left to right. -/
def dictFromPairs (l : List (String × Value)) : Row :=
  l.foldl (fun d p => dictSet d p.1 p.2) []

/-- The `DynamicTable` class: `column_info` is the ordered schema
(list of `(name, type)` pairs), `rows` the ordered row sequence. -/
structure DynamicTable where
  column_info : List (String × ColumnType)
  rows : List Row
deriving DecidableEq

/-- Column names of a schema, in order. -/
def colNames (ci : List (String × ColumnType)) : List String := ci.map Prod.fst

/-- `DynamicTable.add_column`: reject a present name, else append the
column to the schema and set the new key to `None` on every row. -/
def add_column (t : DynamicTable) (name : String) (ty : ColumnType) :
    Except (Err × DynamicTable) DynamicTable :=
  if (colNames t.column_info).contains name then
    Except.error (Err.duplicateColumn, t)
  else
    Except.ok { column_info := t.column_info ++ [(name, ty)],
                rows := t.rows.map (fun row => dictSet row name Value.none) }

/-- `del self.column_info[index]` where `index` is the first position of
`name`: drop the first schema entry with that name. -/
def eraseFirstCol : List (String × ColumnType) → String →
    List (String × ColumnType)
  | [], _ => []
  | c :: cs, n => if c.1 = n then cs else c :: eraseFirstCol cs n

/-- The `for row in self.rows: del row[column_name]` loop.  A row missing
the key raises `KeyError`, leaving the earlier rows already modified:
the flag records success, the list is the state of `rows` at exit. -/
def delColumnRows (name : String) : List Row → Bool × List Row
  | [] => (true, [])
  | r :: rs =>
      if dictHasKey r name then
        let res := delColumnRows name rs
        (res.1, dictDel r name :: res.2)
      else (false, r :: rs)

/-- `DynamicTable.delete_column`: reject an absent name, else drop the
first schema entry with that name and delete the key from every row
(the schema mutation happens before the row loop, so a `KeyError`
mid-loop leaves a partially modified table). -/
def delete_column (t : DynamicTable) (name : String) :
    Except (Err × DynamicTable) DynamicTable :=
  if (colNames t.column_info).contains name then
    let ci := eraseFirstCol t.column_info name
    match delColumnRows name t.rows with
    | (true, rows) => Except.ok { column_info := ci, rows := rows }
    | (false, rows) => Except.error (Err.keyError, { column_info := ci, rows := rows })
  else
    Except.error (Err.unknownColumn, t)

/-- The validation loop of `add_row` / `update_row`: walk the schema,
checking `isinstance(values[i], column_type)`, and raise on the first
mismatch.  The arity guard runs first in the source, so the two lists
have equal length whenever this is reached. -/
def validateValues : List (String × ColumnType) → List Value →
    Except Err (List Value)
  | [], _ => Except.ok []
  | (_, _) :: _, [] => Except.error Err.indexOutOfRange
  | (name, ty) :: ci, v :: vs =>
      if isinst v ty then
        match validateValues ci vs with
        | Except.ok vv => Except.ok (v :: vv)
        | Except.error e => Except.error e
      else Except.error (Err.typeMismatch name)

/-- `DynamicTable.add_row`: arity guard, validation loop, then append
`dict(zip(column_names, validated_values))`. -/
def add_row (t : DynamicTable) (values : List Value) :
    Except (Err × DynamicTable) DynamicTable :=
  if values.length ≠ t.column_info.length then
    Except.error (Err.arityMismatch, t)
  else
    match validateValues t.column_info values with
    | Except.error e => Except.error (e, t)
    | Except.ok vv =>
        Except.ok { t with
          rows := t.rows ++ [dictFromPairs ((colNames t.column_info).zip vv)] }

/-- `DynamicTable.update_row`: index guard (negative indices rejected),
arity guard, validation loop, then replace the row wholesale. -/
def update_row (t : DynamicTable) (row_index : Int) (values : List Value) :
    Except (Err × DynamicTable) DynamicTable :=
  if row_index < 0 ∨ (t.rows.length : Int) ≤ row_index then
    Except.error (Err.indexOutOfRange, t)
  else if values.length ≠ t.column_info.length then
    Except.error (Err.arityMismatch, t)
  else
    match validateValues t.column_info values with
    | Except.error e => Except.error (e, t)
    | Except.ok vv =>
        Except.ok { t with
          rows := t.rows.set row_index.toNat
            (dictFromPairs ((colNames t.column_info).zip vv)) }

/-- Python's index adjustment for sequences: a negative index counts from
the end of the list. -/
def pyNormIdx (i : Int) (n : Nat) : Int := if i < 0 then i + n else i

/-- Python `del list[i]`: a negative index counts from the end
(`del rows[-1]` removes the last element); only an index that is still
out of range after that adjustment raises `IndexError`. -/
def pyDelListAt (l : List Row) (i : Int) : Except Err (List Row) :=
  if pyNormIdx i l.length < 0 ∨ (l.length : Int) ≤ pyNormIdx i l.length then
    Except.error Err.indexOutOfRange
  else Except.ok (l.eraseIdx (pyNormIdx i l.length).toNat)

/-- `DeleteRowMutation.mutate`'s row deletion `del dynamic_table.rows[row_index]`
on the resolved table. -/
def delete_row (t : DynamicTable) (row_index : Int) :
    Except (Err × DynamicTable) DynamicTable :=
  match pyDelListAt t.rows row_index with
  | Except.ok rows => Except.ok { t with rows := rows }
  | Except.error e => Except.error (e, t)

/-- `tuple(row[column] for column, _ in self.column_info)`: the row's
values in schema-column order; `Option.none` models the `KeyError` on a
missing key. -/
def rowTuple : List (String × ColumnType) → Row → Option (List Value)
  | [], _ => some []
  | c :: ci, row =>
      match dictGet row c.1, rowTuple ci row with
      | some v, some vs => some (v :: vs)
      | _, _ => Option.none

/-- Python tuple equality, componentwise `pyEq`. -/
def tupEq : List Value → List Value → Bool
  | [], [] => true
  | a :: as', b :: bs => pyEq a b && tupEq as' bs
  | _, _ => false

/-- The `remove_duplicates` scan: `seen` holds the key tuples of the rows
kept so far; a row whose tuple is already in `seen` is dropped. -/
def dedupAux (ci : List (String × ColumnType)) (seen : List (List Value)) :
    List Row → Except Err (List Row)
  | [] => Except.ok []
  | r :: rs =>
      match rowTuple ci r with
      | Option.none => Except.error Err.keyError
      | some k =>
          if seen.any (fun s => tupEq s k) then dedupAux ci seen rs
          else
            match dedupAux ci (k :: seen) rs with
            | Except.ok out => Except.ok (r :: out)
            | Except.error e => Except.error e

/-- `DynamicTable.remove_duplicates`: run the scan; `self.rows` is only
assigned after the loop finishes, so a `KeyError` leaves the table
unchanged. -/
def remove_duplicates (t : DynamicTable) :
    Except (Err × DynamicTable) DynamicTable :=
  match dedupAux t.column_info [] t.rows with
  | Except.ok rows => Except.ok { t with rows := rows }
  | Except.error e => Except.error (e, t)

/-- The `Database` class: a dict from table name to table. -/
structure Database where
  tables : List (String × DynamicTable)
deriving DecidableEq

/-- `Database.add_table`: reject a present name, else register a fresh
table with the given schema and no rows. -/
def add_table (db : Database) (table_name : String)
    (column_info : List (String × ColumnType)) :
    Except (Err × Database) Database :=
  if (db.tables.map Prod.fst).contains table_name then
    Except.error (Err.duplicateTable, db)
  else
    Except.ok { tables := db.tables ++ [(table_name, DynamicTable.mk column_info [])] }

/-- `Database.remove_table`: reject an absent name, else drop the entry. -/
def remove_table (db : Database) (table_name : String) :
    Except (Err × Database) Database :=
  if (db.tables.map Prod.fst).contains table_name then
    Except.ok { tables := db.tables.filter (fun p => p.1 ≠ table_name) }
  else
    Except.error (Err.unknownTable, db)

/-! ### Text-to-typed-value conversion (`convert_values`) -/

/-- The whitespace characters stripped by Python `str.strip()`. -/
def isPySpace (c : Char) : Bool :=
  c = ' ' ∨ c = '\t' ∨ c = '\n' ∨ c = '\r' ∨ c = '\x0b' ∨ c = '\x0c'

/-- Python `str.strip()` on a character list. -/
def pyStripChars (l : List Char) : List Char :=
  ((l.dropWhile isPySpace).reverse.dropWhile isPySpace).reverse

/-- Python `str.lower()`, modelled per ASCII character. -/
def pyLower (s : String) : String := String.mk (s.toList.map Char.toLower)

/-- Decimal digit run as accepted by Python `int`: digits, with single
underscores allowed only between two digits. -/
def pyDigitsGo (acc : Nat) : List Char → Option Nat
  | [] => some acc
  | c :: cs =>
      if c.isDigit then pyDigitsGo (10 * acc + (c.toNat - 48)) cs
      else if c = '_' then
        match cs with
        | [] => Option.none
        | c2 :: cs2 =>
            if c2.isDigit then pyDigitsGo (10 * acc + (c2.toNat - 48)) cs2
            else Option.none
      else Option.none

/-- Parse a nonempty digit run (leading underscore rejected). -/
def pyDigits : List Char → Option Nat
  | [] => Option.none
  | c :: cs => if c.isDigit then pyDigitsGo (c.toNat - 48) cs else Option.none

/-- Python `int(text)` for a decimal string: strip whitespace, optional
sign, digit run; `Option.none` models the `ValueError` on bad input. -/
def pyInt (s : String) : Option Int :=
  match pyStripChars s.toList with
  | [] => Option.none
  | c :: cs =>
      if c = '+' then (pyDigits cs).map (fun d => Int.ofNat d)
      else if c = '-' then (pyDigits cs).map (fun d => -(Int.ofNat d))
      else (pyDigits (c :: cs)).map (fun d => Int.ofNat d)

/-- The `convert_values` utility: walk the schema, converting
`values[i]` by the column's type — `str` passes the text through, `int`
parses it (raising `ValueError` on failure, surfaced as
`conversionError`), `bool` compares `value.lower()` with `"true"`.
Running out of values raises `IndexError`. -/
def convert_values : List (String × ColumnType) → List String →
    Except Err (List Value)
  | [], _ => Except.ok []
  | (_, _) :: _, [] => Except.error Err.indexOutOfRange
  | (_, ty) :: ci, v :: vs =>
      let conv : Except Err Value :=
        match ty with
        | ColumnType.str => Except.ok (Value.str v)
        | ColumnType.int =>
            match pyInt v with
            | some n => Except.ok (Value.int n)
            | Option.none => Except.error Err.conversionError
        | ColumnType.bool => Except.ok (Value.bool (pyLower v = "true"))
      match conv with
      | Except.error e => Except.error e
      | Except.ok w =>
          match convert_values ci vs with
          | Except.ok ws => Except.ok (w :: ws)
          | Except.error e => Except.error e

/-! ### Invariants and operation sequences -/

/-- A row's key set equals the given name set (membership in both
directions). -/
def sameKeys (row : Row) (names : List String) : Bool :=
  row.all (fun p => names.contains p.1) && names.all (fun n => dictHasKey row n)

/-- The row-keys-match-schema invariant: every row's key set equals the
schema's column-name set. -/
def tableInv (t : DynamicTable) : Bool :=
  t.rows.all (fun r => sameKeys r (colNames t.column_info))

/-- Data-model wellformedness (spec §3): column names unique within the
schema, and the row-keys-match-schema invariant. -/
def tableWF (t : DynamicTable) : Prop :=
  (colNames t.column_info).Nodup ∧ tableInv t = true

instance (t : DynamicTable) : Decidable (tableWF t) := by
  unfold tableWF; infer_instance

/-- A core table operation with its arguments. -/
inductive Op where
  | addCol (name : String) (ty : ColumnType) : Op
  | delCol (name : String) : Op
  | addRow (values : List Value) : Op
  | updRow (i : Int) (values : List Value) : Op
  | delRow (i : Int) : Op
  | removeDups : Op

/-- Run one operation, keeping both outcomes' states. -/
def runOp (t : DynamicTable) : Op → Except (Err × DynamicTable) DynamicTable
  | Op.addCol n ty => add_column t n ty
  | Op.delCol n => delete_column t n
  | Op.addRow vs => add_row t vs
  | Op.updRow i vs => update_row t i vs
  | Op.delRow i => delete_row t i
  | Op.removeDups => remove_duplicates t

/-- The table state after one operation, whether it succeeded or raised
(on a raise, the state left at the raise point). -/
def applyOp (t : DynamicTable) (op : Op) : DynamicTable :=
  match runOp t op with
  | Except.ok t' => t'
  | Except.error e => e.2

/-- A row's key set matches a name list, membership-wise. -/
def KeysMatch (row : Row) (names : List String) : Prop :=
  ∀ s, s ∈ dictKeys row ↔ s ∈ names

/-- The duplicate test the code's set membership implements: a row is a
duplicate of an earlier one when its tuple of values in schema-column
order is Python-`==`-equal (`tupEq`, under which `True == 1`) to an
earlier row's tuple.  This is NOT the spec's structural equality; see
`structIsDupOfEarlier` for that. -/
def isDupOfEarlier (ci : List (String × ColumnType)) (prev : List Row)
    (r : Row) : Bool :=
  prev.any (fun p =>
    match rowTuple ci p, rowTuple ci r with
    | some a, some b => tupEq a b
    | _, _ => false)

/-- First-occurrence scan under the code's Python-`==` duplicate test:
keep a row exactly when it is not a duplicate of an earlier row; `prev`
accumulates all rows already scanned. -/
def firstOccAux (ci : List (String × ColumnType)) (prev : List Row) :
    List Row → List Row
  | [] => []
  | r :: rs =>
      if isDupOfEarlier ci prev r then firstOccAux ci (prev ++ [r]) rs
      else r :: firstOccAux ci (prev ++ [r]) rs

/-- "Keeps the first occurrence of each distinct tuple, drops later
occurrences, preserving relative order of kept rows" — with
distinctness judged by the code's Python `==` (`True == 1`), not the
spec's structural equality (see `structFirstOccurrences`). -/
def firstOccurrences (ci : List (String × ColumnType)) (rows : List Row) :
    List Row :=
  firstOccAux ci [] rows

/-- Modelled from the spec: "Equality is defined structurally over the
typed values (Text compares by content, Integer by value, Boolean by
value)", and a null-equivalent is equal only to a null-equivalent —
values of different kinds are unequal, unlike Python `==`. -/
def structEq : Value → Value → Bool
  | Value.str s, Value.str t => s = t
  | Value.int m, Value.int n => m = n
  | Value.bool a, Value.bool b => a = b
  | Value.none, Value.none => true
  | _, _ => false

/-- Componentwise structural tuple equality (spec's equality). -/
def structTupEq : List Value → List Value → Bool
  | [], [] => true
  | a :: as', b :: bs => structEq a b && structTupEq as' bs
  | _, _ => false

/-- Modelled from the spec's wording for `removeDuplicates`: "a row is a
duplicate of an earlier one if the tuple of its values in schema-column
order compares equal component-wise to an earlier row's tuple", with the
spec's structural equality. -/
def structIsDupOfEarlier (ci : List (String × ColumnType)) (prev : List Row)
    (r : Row) : Bool :=
  prev.any (fun p =>
    match rowTuple ci p, rowTuple ci r with
    | some a, some b => structTupEq a b
    | _, _ => false)

/-- Modelled from the spec's wording: the structural-equality
first-occurrence scan. -/
def structFirstOccAux (ci : List (String × ColumnType)) (prev : List Row) :
    List Row → List Row
  | [] => []
  | r :: rs =>
      if structIsDupOfEarlier ci prev r then structFirstOccAux ci (prev ++ [r]) rs
      else r :: structFirstOccAux ci (prev ++ [r]) rs

/-- Modelled from the spec's wording: "keeps the first occurrence of each
distinct tuple, drops later occurrences, preserving relative order of
kept rows", with tuples compared by the spec's structural equality. -/
def structFirstOccurrences (ci : List (String × ColumnType))
    (rows : List Row) : List Row :=
  structFirstOccAux ci [] rows

/-- A key-conforming table whose Integer column holds the Boolean `True`
in one row and the Integer `1` in another — a state reachable through
`add_row`, since Python `isinstance` accepts a Boolean in an Integer
column. -/
def tmix : DynamicTable :=
  { column_info := [("Age", ColumnType.int)],
    rows := [[("Age", Value.bool true)], [("Age", Value.int 1)]] }

/-- Modelled from the spec's words for the Boolean conversion rule:
"`true` if the text equals "true" case-insensitively after trimming". -/
def specBoolRule (s : String) : Bool :=
  pyLower (String.mk (pyStripChars s.toList)) = "true"

/-- A small concrete conforming table (the demo table's first two
columns), used as witness input. -/
def wt : DynamicTable :=
  { column_info := [("Name", ColumnType.str), ("Age", ColumnType.int)],
    rows := [[("Name", Value.str "Alice"), ("Age", Value.int 25)]] }

/-- A concrete conforming table containing a duplicate row, used as
witness input (the demo table's shape, shortened). -/
def wtd : DynamicTable :=
  { column_info := [("Name", ColumnType.str), ("Age", ColumnType.int)],
    rows := [[("Name", Value.str "Alice"), ("Age", Value.int 25)],
             [("Name", Value.str "Bob"), ("Age", Value.int 30)],
             [("Name", Value.str "Alice"), ("Age", Value.int 25)]] }

/-! ### Dict lemmas -/

theorem contains_iff_mem (l : List String) (s : String) :
    l.contains s = true ↔ s ∈ l := by
  simp [List.contains, List.elem_iff]

theorem dictKeys_nil : dictKeys [] = [] := rfl

theorem dictKeys_cons (p : String × Value) (d : Row) :
    dictKeys (p :: d) = p.1 :: dictKeys d := rfl

theorem mem_dictKeys_dictSet (d : Row) (k : String) (v : Value) (s : String) :
    s ∈ dictKeys (dictSet d k v) ↔ s ∈ dictKeys d ∨ s = k := by
  induction d with
  | nil => simp [dictSet, dictKeys]
  | cons p d ih =>
    obtain ⟨a, b⟩ := p
    simp only [dictSet]
    by_cases h : a = k
    · rw [if_pos h]
      subst h
      simp only [dictKeys_cons, List.mem_cons]
      tauto
    · rw [if_neg h]
      simp only [dictKeys_cons, List.mem_cons, ih]
      tauto

theorem mem_dictKeys_dictDel (d : Row) (k : String) (s : String) :
    s ∈ dictKeys (dictDel d k) ↔ s ∈ dictKeys d ∧ s ≠ k := by
  simp only [dictDel, dictKeys, List.mem_map, List.mem_filter, decide_eq_true_eq]
  constructor
  · rintro ⟨p, ⟨hp, hne⟩, rfl⟩
    exact ⟨⟨p, hp, rfl⟩, hne⟩
  · rintro ⟨⟨p, hp, rfl⟩, hne⟩
    exact ⟨p, ⟨hp, hne⟩, rfl⟩

theorem dictGet_isSome_iff (d : Row) (k : String) :
    (dictGet d k).isSome = true ↔ k ∈ dictKeys d := by
  induction d with
  | nil => simp [dictGet, dictKeys]
  | cons p d ih =>
    obtain ⟨a, b⟩ := p
    by_cases h : a = k
    · subst h
      simp [dictGet, dictKeys]
    · simp only [dictGet, if_neg h, dictKeys, List.map_cons, List.mem_cons, ih]
      constructor
      · exact Or.inr
      · rintro (rfl | hm)
        · exact absurd rfl h
        · exact hm

theorem mem_dictKeys_dictFromPairs_fold (l : List (String × Value)) (d : Row)
    (s : String) :
    s ∈ dictKeys (l.foldl (fun d p => dictSet d p.1 p.2) d) ↔
      s ∈ dictKeys d ∨ s ∈ l.map Prod.fst := by
  induction l generalizing d with
  | nil => simp
  | cons p l ih =>
    simp only [List.foldl_cons, ih, mem_dictKeys_dictSet, List.map_cons,
      List.mem_cons]
    tauto

theorem mem_dictKeys_dictFromPairs (l : List (String × Value)) (s : String) :
    s ∈ dictKeys (dictFromPairs l) ↔ s ∈ l.map Prod.fst := by
  simpa [dictFromPairs, dictKeys] using mem_dictKeys_dictFromPairs_fold l [] s

theorem dictDel_dictSet_of_not_mem (d : Row) (k : String) (v : Value)
    (h : k ∉ dictKeys d) : dictDel (dictSet d k v) k = d := by
  induction d with
  | nil => simp [dictSet, dictDel]
  | cons p d ih =>
    obtain ⟨a, b⟩ := p
    simp only [dictKeys_cons, List.mem_cons, not_or] at h
    obtain ⟨h1, h2⟩ := h
    have ha : a ≠ k := fun hak => h1 hak.symm
    simp only [dictSet, if_neg ha, dictDel, List.filter_cons,
      decide_eq_true_eq]
    rw [if_pos ha]
    exact congrArg (List.cons (a, b)) (ih h2)

/-! ### Invariant in propositional form -/

theorem sameKeys_iff (row : Row) (names : List String) :
    sameKeys row names = true ↔ KeysMatch row names := by
  simp only [sameKeys, Bool.and_eq_true, List.all_eq_true, KeysMatch]
  constructor
  · rintro ⟨h1, h2⟩ s
    constructor
    · intro hs
      obtain ⟨p, hp, rfl⟩ := List.mem_map.1 hs
      exact (contains_iff_mem _ _).1 (h1 p hp)
    · intro hs
      exact (contains_iff_mem _ _).1 (h2 s hs)
  · intro h
    constructor
    · intro p hp
      exact (contains_iff_mem _ _).2 ((h p.1).1 (List.mem_map_of_mem Prod.fst hp))
    · intro n hn
      exact (contains_iff_mem _ _).2 ((h n).2 hn)

theorem tableInv_iff (t : DynamicTable) :
    tableInv t = true ↔ ∀ r ∈ t.rows, KeysMatch r (colNames t.column_info) := by
  simp [tableInv, List.all_eq_true, sameKeys_iff]

/-! ### Schema lemmas -/

theorem colNames_nil : colNames [] = [] := rfl

theorem colNames_cons (c : String × ColumnType) (cs : List (String × ColumnType)) :
    colNames (c :: cs) = c.1 :: colNames cs := rfl

theorem colNames_append (l r : List (String × ColumnType)) :
    colNames (l ++ r) = colNames l ++ colNames r := by
  simp [colNames]

theorem mem_of_mem_colNames_eraseFirstCol (cs : List (String × ColumnType))
    (n s : String) (h : s ∈ colNames (eraseFirstCol cs n)) : s ∈ colNames cs := by
  induction cs with
  | nil => simpa [eraseFirstCol] using h
  | cons c cs ih =>
    simp only [eraseFirstCol] at h
    by_cases hcn : c.1 = n
    · rw [if_pos hcn] at h
      rw [colNames_cons]
      exact List.mem_cons_of_mem _ h
    · rw [if_neg hcn, colNames_cons, List.mem_cons] at h
      rw [colNames_cons, List.mem_cons]
      rcases h with h | h
      · exact Or.inl h
      · exact Or.inr (ih h)

theorem nodup_colNames_eraseFirstCol (cs : List (String × ColumnType))
    (n : String) (h : (colNames cs).Nodup) :
    (colNames (eraseFirstCol cs n)).Nodup := by
  induction cs with
  | nil => simpa [eraseFirstCol] using h
  | cons c cs ih =>
    rw [colNames_cons, List.nodup_cons] at h
    obtain ⟨hc, hnd⟩ := h
    simp only [eraseFirstCol]
    by_cases hcn : c.1 = n
    · rw [if_pos hcn]
      exact hnd
    · rw [if_neg hcn, colNames_cons, List.nodup_cons]
      exact ⟨fun hm => hc (mem_of_mem_colNames_eraseFirstCol cs n c.1 hm), ih hnd⟩

theorem mem_colNames_eraseFirstCol (cs : List (String × ColumnType))
    (n : String) (h : (colNames cs).Nodup) (s : String) :
    s ∈ colNames (eraseFirstCol cs n) ↔ s ∈ colNames cs ∧ s ≠ n := by
  induction cs with
  | nil => simp [eraseFirstCol, colNames_nil]
  | cons c cs ih =>
    rw [colNames_cons, List.nodup_cons] at h
    obtain ⟨hc, hnd⟩ := h
    simp only [eraseFirstCol]
    by_cases hcn : c.1 = n
    · rw [if_pos hcn]
      subst hcn
      rw [colNames_cons, List.mem_cons]
      constructor
      · intro hs
        exact ⟨Or.inr hs, fun hsn => hc (hsn ▸ hs)⟩
      · rintro ⟨rfl | hs, hsn⟩
        · exact absurd rfl hsn
        · exact hs
    · rw [if_neg hcn, colNames_cons, colNames_cons, List.mem_cons, List.mem_cons,
        ih hnd]
      constructor
      · rintro (rfl | ⟨hs, hsn⟩)
        · exact ⟨Or.inl rfl, hcn⟩
        · exact ⟨Or.inr hs, hsn⟩
      · rintro ⟨rfl | hs, hsn⟩
        · exact Or.inl rfl
        · exact Or.inr ⟨hs, hsn⟩

theorem delColumnRows_ok (name : String) (rows : List Row)
    (h : ∀ r ∈ rows, name ∈ dictKeys r) :
    delColumnRows name rows = (true, rows.map (fun r => dictDel r name)) := by
  induction rows with
  | nil => rfl
  | cons r rs ih =>
    have hr : dictHasKey r name = true :=
      (contains_iff_mem _ _).2 (h r (List.mem_cons_self r rs))
    have hrest := ih (fun x hx => h x (List.mem_cons_of_mem r hx))
    simp [delColumnRows, hr, hrest]

/-! ### Validation lemmas -/

theorem validateValues_ok_eq (ci : List (String × ColumnType))
    (vs vv : List Value) (hlen : vs.length = ci.length)
    (h : validateValues ci vs = Except.ok vv) : vv = vs := by
  induction ci generalizing vs vv with
  | nil =>
    cases vs with
    | nil =>
      simp only [validateValues] at h
      injection h with h
      exact h.symm
    | cons v vs => simp at hlen
  | cons c ci ih =>
    obtain ⟨name, ty⟩ := c
    cases vs with
    | nil => simp [validateValues] at h
    | cons v vs =>
      simp only [List.length_cons, Nat.succ_inj'] at hlen
      simp only [validateValues] at h
      by_cases hv : isinst v ty = true
      · rw [if_pos hv] at h
        cases hrec : validateValues ci vs with
        | ok vv' =>
          rw [hrec] at h
          injection h with h
          rw [← h, ih vs vv' hlen hrec]
        | error e => rw [hrec] at h; cases h
      · rw [if_neg hv] at h
        cases h

theorem validateValues_ok_of_all (ci : List (String × ColumnType))
    (vs : List Value) (hlen : vs.length = ci.length)
    (h : ∀ i, i < ci.length →
      isinst (vs.getD i Value.none) ((ci.getD i ("", ColumnType.str)).2) = true) :
    validateValues ci vs = Except.ok vs := by
  induction ci generalizing vs with
  | nil =>
    cases vs with
    | nil => rfl
    | cons v vs => simp at hlen
  | cons c ci ih =>
    obtain ⟨name, ty⟩ := c
    cases vs with
    | nil => simp at hlen
    | cons v vs =>
      simp only [List.length_cons, Nat.succ_inj'] at hlen
      have h0 := h 0 (Nat.succ_pos _)
      simp only [List.getD_cons_zero] at h0
      have hrest : ∀ i, i < ci.length →
          isinst (vs.getD i Value.none) ((ci.getD i ("", ColumnType.str)).2) = true := by
        intro i hi
        have := h (i + 1) (Nat.succ_lt_succ hi)
        simpa only [List.getD_cons_succ] using this
      simp only [validateValues, if_pos h0, ih vs hlen hrest]

theorem validateValues_error_first (ci : List (String × ColumnType))
    (vs : List Value) (i : Nat) (hi : i < ci.length)
    (hlen : vs.length = ci.length)
    (hok : ∀ j, j < i →
      isinst (vs.getD j Value.none) ((ci.getD j ("", ColumnType.str)).2) = true)
    (hbad : isinst (vs.getD i Value.none) ((ci.getD i ("", ColumnType.str)).2) = false) :
    validateValues ci vs =
      Except.error (Err.typeMismatch ((ci.getD i ("", ColumnType.str)).1)) := by
  induction ci generalizing vs i with
  | nil => exact absurd hi (Nat.not_lt_zero i)
  | cons c ci ih =>
    obtain ⟨name, ty⟩ := c
    cases vs with
    | nil => simp at hlen
    | cons v vs =>
      simp only [List.length_cons, Nat.succ_inj'] at hlen
      cases i with
      | zero =>
        simp only [List.getD_cons_zero] at hbad ⊢
        simp [validateValues, hbad]
      | succ i =>
        have h0 := hok 0 (Nat.succ_pos _)
        simp only [List.getD_cons_zero] at h0
        have hok' : ∀ j, j < i →
            isinst (vs.getD j Value.none) ((ci.getD j ("", ColumnType.str)).2) = true := by
          intro j hj
          have := hok (j + 1) (Nat.succ_lt_succ hj)
          simpa only [List.getD_cons_succ] using this
        have hbad' : isinst (vs.getD i Value.none)
            ((ci.getD i ("", ColumnType.str)).2) = false := by
          simpa only [List.getD_cons_succ] using hbad
        have hi' : i < ci.length := Nat.lt_of_succ_lt_succ hi
        simp only [List.getD_cons_succ]
        simp only [validateValues, if_pos h0, ih vs i hi' hlen hok' hbad']

theorem keysMatch_newRow (ci : List (String × ColumnType)) (vv : List Value)
    (hlen : vv.length = ci.length) :
    KeysMatch (dictFromPairs ((colNames ci).zip vv)) (colNames ci) := by
  intro s
  rw [mem_dictKeys_dictFromPairs, List.map_fst_zip]
  rw [colNames, List.length_map, hlen]

/-! ### Deduplication: success and sublist -/

theorem rowTuple_isSome (ci : List (String × ColumnType)) (row : Row)
    (h : ∀ c ∈ ci, c.1 ∈ dictKeys row) : (rowTuple ci row).isSome = true := by
  induction ci with
  | nil => rfl
  | cons c ci ih =>
    have hm : c.1 ∈ dictKeys row := h c (List.mem_cons_self c ci)
    have hg : (dictGet row c.1).isSome = true := (dictGet_isSome_iff _ _).2 hm
    obtain ⟨v, hv⟩ := Option.isSome_iff_exists.1 hg
    have hr := ih (fun x hx => h x (List.mem_cons_of_mem c hx))
    obtain ⟨vs, hvs⟩ := Option.isSome_iff_exists.1 hr
    simp [rowTuple, hv, hvs]

theorem dedupAux_ok (ci : List (String × ColumnType)) (rows : List Row)
    (h : ∀ r ∈ rows, (rowTuple ci r).isSome = true) (seen : List (List Value)) :
    ∃ out, dedupAux ci seen rows = Except.ok out ∧ out.Sublist rows := by
  induction rows generalizing seen with
  | nil => exact ⟨[], rfl, List.Sublist.refl []⟩
  | cons r rs ih =>
    obtain ⟨k, hk⟩ :=
      Option.isSome_iff_exists.1 (h r (List.mem_cons_self r rs))
    have hrest : ∀ x ∈ rs, (rowTuple ci x).isSome = true :=
      fun x hx => h x (List.mem_cons_of_mem r hx)
    by_cases hs : seen.any (fun s => tupEq s k) = true
    · obtain ⟨out, ho, hsub⟩ := ih hrest seen
      refine ⟨out, ?_, hsub.cons r⟩
      simp [dedupAux, hk, hs, ho]
    · obtain ⟨out, ho, hsub⟩ := ih hrest (k :: seen)
      refine ⟨r :: out, ?_, hsub.cons₂ r⟩
      simp [dedupAux, hk, hs, ho]

theorem remove_duplicates_ok (t : DynamicTable) (h : tableInv t = true) :
    ∃ out, remove_duplicates t = Except.ok { t with rows := out } ∧
      out.Sublist t.rows := by
  have hk : ∀ r ∈ t.rows, (rowTuple t.column_info r).isSome = true := by
    intro r hr
    apply rowTuple_isSome
    intro c hc
    exact ((tableInv_iff t).1 h r hr c.1).2 (List.mem_map_of_mem Prod.fst hc)
  obtain ⟨out, ho, hsub⟩ := dedupAux_ok t.column_info t.rows hk []
  exact ⟨out, by simp [remove_duplicates, ho], hsub⟩

/-! ### Operation-level wellformedness -/

theorem add_column_ok_wf (t : DynamicTable) (n : String) (ty : ColumnType)
    (h : tableWF t) (t' : DynamicTable)
    (ho : add_column t n ty = Except.ok t') : tableWF t' := by
  obtain ⟨hnd, hinv⟩ := h
  rw [tableInv_iff] at hinv
  unfold add_column at ho
  split at ho
  · cases ho
  · rename_i hc
    have hn : n ∉ colNames t.column_info := fun hm =>
      hc ((contains_iff_mem _ _).2 hm)
    injection ho with ho
    subst ho
    constructor
    · rw [colNames_append, List.nodup_append]
      refine ⟨hnd, List.nodup_singleton n, ?_⟩
      intro s hs hsn
      rw [colNames_cons, colNames_nil, List.mem_singleton] at hsn
      subst hsn
      exact hn hs
    · rw [tableInv_iff]
      intro r hr
      obtain ⟨r₀, hr₀, rfl⟩ := List.mem_map.1 hr
      intro s
      rw [mem_dictKeys_dictSet, colNames_append, List.mem_append,
        colNames_cons, colNames_nil, List.mem_singleton]
      rw [hinv r₀ hr₀ s]

theorem delete_column_ok_of_inv (t : DynamicTable) (n : String)
    (h : tableInv t = true) (hc : n ∈ colNames t.column_info) :
    delete_column t n = Except.ok
      { column_info := eraseFirstCol t.column_info n,
        rows := t.rows.map (fun r => dictDel r n) } := by
  have hrows : ∀ r ∈ t.rows, n ∈ dictKeys r := by
    intro r hr
    exact ((tableInv_iff t).1 h r hr n).2 hc
  unfold delete_column
  rw [if_pos ((contains_iff_mem _ _).2 hc), delColumnRows_ok n t.rows hrows]

theorem delete_column_ok_wf (t : DynamicTable) (n : String)
    (h : tableWF t) (t' : DynamicTable)
    (ho : delete_column t n = Except.ok t') : tableWF t' := by
  obtain ⟨hnd, hinv⟩ := h
  by_cases hc : n ∈ colNames t.column_info
  · rw [delete_column_ok_of_inv t n hinv hc] at ho
    injection ho with ho
    subst ho
    constructor
    · exact nodup_colNames_eraseFirstCol t.column_info n hnd
    · rw [tableInv_iff]
      intro r hr
      obtain ⟨r₀, hr₀, rfl⟩ := List.mem_map.1 hr
      intro s
      rw [mem_dictKeys_dictDel,
        mem_colNames_eraseFirstCol t.column_info n hnd s,
        ((tableInv_iff t).1 hinv r₀ hr₀ s)]
  · unfold delete_column at ho
    rw [if_neg (fun hcc => hc ((contains_iff_mem _ _).1 hcc))] at ho
    cases ho

theorem add_row_ok_wf (t : DynamicTable) (vs : List Value) (h : tableWF t)
    (t' : DynamicTable) (ho : add_row t vs = Except.ok t') : tableWF t' := by
  obtain ⟨hnd, hinv⟩ := h
  unfold add_row at ho
  split at ho
  · cases ho
  · rename_i hlen
    have hlen' : vs.length = t.column_info.length := not_not.1 hlen
    split at ho
    · cases ho
    · rename_i vv hvv
      injection ho with ho
      subst ho
      have hvveq : vv = vs := validateValues_ok_eq t.column_info vs vv hlen' hvv
      subst hvveq
      refine ⟨hnd, ?_⟩
      rw [tableInv_iff]
      intro r hr
      rcases List.mem_append.1 hr with hr | hr
      · exact (tableInv_iff t).1 hinv r hr
      · rw [List.mem_singleton] at hr
        subst hr
        exact keysMatch_newRow t.column_info vv hlen'

theorem update_row_ok_wf (t : DynamicTable) (i : Int) (vs : List Value)
    (h : tableWF t) (t' : DynamicTable)
    (ho : update_row t i vs = Except.ok t') : tableWF t' := by
  obtain ⟨hnd, hinv⟩ := h
  unfold update_row at ho
  split at ho
  · cases ho
  · split at ho
    · cases ho
    · rename_i hidx hlen
      have hlen' : vs.length = t.column_info.length := not_not.1 hlen
      split at ho
      · cases ho
      · rename_i vv hvv
        injection ho with ho
        subst ho
        have hvveq : vv = vs := validateValues_ok_eq t.column_info vs vv hlen' hvv
        subst hvveq
        refine ⟨hnd, ?_⟩
        rw [tableInv_iff]
        intro r hr
        rcases List.mem_or_eq_of_mem_set hr with hr | hr
        · exact (tableInv_iff t).1 hinv r hr
        · subst hr
          exact keysMatch_newRow t.column_info vv hlen'

theorem delete_row_ok_wf (t : DynamicTable) (i : Int) (h : tableWF t)
    (t' : DynamicTable) (ho : delete_row t i = Except.ok t') : tableWF t' := by
  obtain ⟨hnd, hinv⟩ := h
  unfold delete_row at ho
  cases hp : pyDelListAt t.rows i with
  | error e => rw [hp] at ho; cases ho
  | ok rows =>
    rw [hp] at ho
    injection ho with ho
    subst ho
    unfold pyDelListAt at hp
    split at hp
    · cases hp
    · injection hp with hp
      subst hp
      refine ⟨hnd, ?_⟩
      rw [tableInv_iff]
      intro r hr
      exact (tableInv_iff t).1 hinv r (List.mem_of_mem_eraseIdx hr)

theorem remove_duplicates_ok_wf (t : DynamicTable) (h : tableWF t)
    (t' : DynamicTable) (ho : remove_duplicates t = Except.ok t') :
    tableWF t' := by
  obtain ⟨hnd, hinv⟩ := h
  obtain ⟨out, hok, hsub⟩ := remove_duplicates_ok t hinv
  rw [hok] at ho
  injection ho with ho
  subst ho
  refine ⟨hnd, ?_⟩
  rw [tableInv_iff]
  intro r hr
  exact (tableInv_iff t).1 hinv r (hsub.mem hr)

/-! ### Error cases leave the table unchanged -/

theorem add_column_error_eq (t : DynamicTable) (n : String) (ty : ColumnType)
    (e : Err) (t₂ : DynamicTable)
    (he : add_column t n ty = Except.error (e, t₂)) : t₂ = t := by
  unfold add_column at he
  split at he
  · injection he with he
    exact (congrArg Prod.snd he).symm
  · cases he

theorem delete_column_error_eq (t : DynamicTable) (n : String)
    (h : tableWF t) (e : Err) (t₂ : DynamicTable)
    (he : delete_column t n = Except.error (e, t₂)) : t₂ = t := by
  by_cases hc : n ∈ colNames t.column_info
  · rw [delete_column_ok_of_inv t n h.2 hc] at he
    cases he
  · unfold delete_column at he
    rw [if_neg (fun hcc => hc ((contains_iff_mem _ _).1 hcc))] at he
    injection he with he
    exact (congrArg Prod.snd he).symm

theorem add_row_error_eq (t : DynamicTable) (vs : List Value) (e : Err)
    (t₂ : DynamicTable) (he : add_row t vs = Except.error (e, t₂)) : t₂ = t := by
  unfold add_row at he
  split at he
  · injection he with he
    exact (congrArg Prod.snd he).symm
  · split at he
    · injection he with he
      exact (congrArg Prod.snd he).symm
    · cases he

theorem update_row_error_eq (t : DynamicTable) (i : Int) (vs : List Value)
    (e : Err) (t₂ : DynamicTable)
    (he : update_row t i vs = Except.error (e, t₂)) : t₂ = t := by
  unfold update_row at he
  split at he
  · injection he with he
    exact (congrArg Prod.snd he).symm
  · split at he
    · injection he with he
      exact (congrArg Prod.snd he).symm
    · split at he
      · injection he with he
        exact (congrArg Prod.snd he).symm
      · cases he

theorem delete_row_error_eq (t : DynamicTable) (i : Int) (e : Err)
    (t₂ : DynamicTable) (he : delete_row t i = Except.error (e, t₂)) :
    t₂ = t := by
  unfold delete_row at he
  split at he
  · cases he
  · injection he with he
    exact (congrArg Prod.snd he).symm

theorem remove_duplicates_error_eq (t : DynamicTable) (e : Err)
    (t₂ : DynamicTable) (he : remove_duplicates t = Except.error (e, t₂)) :
    t₂ = t := by
  unfold remove_duplicates at he
  split at he
  · cases he
  · injection he with he
    exact (congrArg Prod.snd he).symm

/-! ### Per-operation combination -/

theorem runOp_ok_wf (t : DynamicTable) (op : Op) (h : tableWF t)
    (t' : DynamicTable) (ho : runOp t op = Except.ok t') : tableWF t' := by
  cases op with
  | addCol n ty => exact add_column_ok_wf t n ty h t' ho
  | delCol n => exact delete_column_ok_wf t n h t' ho
  | addRow vs => exact add_row_ok_wf t vs h t' ho
  | updRow i vs => exact update_row_ok_wf t i vs h t' ho
  | delRow i => exact delete_row_ok_wf t i h t' ho
  | removeDups => exact remove_duplicates_ok_wf t h t' ho

theorem runOp_error_eq (t : DynamicTable) (op : Op) (h : tableWF t)
    (e : Err) (t₂ : DynamicTable)
    (he : runOp t op = Except.error (e, t₂)) : t₂ = t := by
  cases op with
  | addCol n ty => exact add_column_error_eq t n ty e t₂ he
  | delCol n => exact delete_column_error_eq t n h e t₂ he
  | addRow vs => exact add_row_error_eq t vs e t₂ he
  | updRow i vs => exact update_row_error_eq t i vs e t₂ he
  | delRow i => exact delete_row_error_eq t i e t₂ he
  | removeDups => exact remove_duplicates_error_eq t e t₂ he

theorem tableWF_applyOp (t : DynamicTable) (op : Op) (h : tableWF t) :
    tableWF (applyOp t op) := by
  unfold applyOp
  cases hro : runOp t op with
  | ok t' => exact runOp_ok_wf t op h t' hro
  | error e =>
    obtain ⟨e1, e2⟩ := e
    have := runOp_error_eq t op h e1 e2 hro
    simpa [this] using h

/-- C1: starting from any table satisfying the spec's data-model
invariants (schema column names unique, each row's key set equal to the
schema's name set), after any sequence of core operations — successful or
failed, and hence at every observable point, by quantifying over all
prefixes — every row's key set still equals the table's current
column-name set. -/
theorem C1_schema_row_consistency (t : DynamicTable) (h : tableWF t)
    (ops : List Op) : tableInv (ops.foldl applyOp t) = true := by
  suffices hwf : tableWF (ops.foldl applyOp t) from hwf.2
  induction ops generalizing t with
  | nil => exact h
  | cons op ops ih => exact ih (applyOp t op) (tableWF_applyOp t op h)

theorem C1_schema_row_consistency_witness :
    tableInv ([Op.addCol "City" ColumnType.str,
               Op.addRow [Value.str "Bob", Value.int 30, Value.str "SF"],
               Op.updRow 0 [Value.str "Ann", Value.int 26, Value.str "LA"],
               Op.delCol "Age",
               Op.removeDups,
               Op.delRow 0].foldl applyOp wt) = true :=
  C1_schema_row_consistency wt (by decide)
    [Op.addCol "City" ColumnType.str,
     Op.addRow [Value.str "Bob", Value.int 30, Value.str "SF"],
     Op.updRow 0 [Value.str "Ann", Value.int 26, Value.str "LA"],
     Op.delCol "Age",
     Op.removeDups,
     Op.delRow 0]

/-- C3: on a data-model-conforming table every core operation either
fully succeeds with the row-keys-match-schema invariant holding in the
result, or fully fails (specific error kind) leaving the table exactly as
it was; store-level `add_table` / `remove_table` likewise fail with the
store unchanged; a freshly created table is empty, so it satisfies the
invariant, and a successful `remove_table` yields exactly the original
store minus that name's entry, every surviving table being one of the
original tables (so each keeps its invariant). -/
theorem C3_atomic_operations (t : DynamicTable) (op : Op) (h : tableWF t) :
    (∀ t', runOp t op = Except.ok t' → tableInv t' = true) ∧
    (∀ e t₂, runOp t op = Except.error (e, t₂) → t₂ = t) ∧
    (∀ db n ci e db₂, add_table db n ci = Except.error (e, db₂) → db₂ = db) ∧
    (∀ db n ci db', add_table db n ci = Except.ok db' →
        db'.tables = db.tables ++ [(n, DynamicTable.mk ci [])] ∧
        tableInv (DynamicTable.mk ci []) = true) ∧
    (∀ db n e db₂, remove_table db n = Except.error (e, db₂) → db₂ = db) ∧
    (∀ db n db', remove_table db n = Except.ok db' →
        db'.tables = db.tables.filter (fun p => p.1 ≠ n) ∧
        ∀ p ∈ db'.tables, p ∈ db.tables) := by
  refine ⟨fun t' ho => (runOp_ok_wf t op h t' ho).2,
          fun e t₂ he => runOp_error_eq t op h e t₂ he, ?_, ?_, ?_, ?_⟩
  · intro db n ci e db₂ he
    unfold add_table at he
    split at he
    · injection he with he
      exact (congrArg Prod.snd he).symm
    · cases he
  · intro db n ci db' ho
    unfold add_table at ho
    split at ho
    · cases ho
    · injection ho with ho
      subst ho
      exact ⟨rfl, rfl⟩
  · intro db n e db₂ he
    unfold remove_table at he
    split at he
    · cases he
    · injection he with he
      exact (congrArg Prod.snd he).symm
  · intro db n db' ho
    unfold remove_table at ho
    split at ho
    · injection ho with ho
      subst ho
      exact ⟨rfl, fun p hp => List.mem_of_mem_filter hp⟩
    · cases ho

theorem C3_atomic_operations_witness :
    tableInv (DynamicTable.mk [("Name", ColumnType.str), ("Age", ColumnType.int)]
      [[("Name", Value.str "Alice"), ("Age", Value.int 25)],
       [("Name", Value.str "Bob"), ("Age", Value.int 30)]]) = true :=
  (C3_atomic_operations wt (Op.addRow [Value.str "Bob", Value.int 30])
    (by decide)).1 _ rfl

/-- C2: `add_row` fails with the arity error when the value count differs
from the column count, fails with the type error naming the first
mismatching column otherwise (the runtime-kind check being the source's
`isinstance` check), and in both failure cases returns the table
unchanged; on success it appends exactly one row keyed by the schema
column names in schema order. -/
theorem C2_add_row_validation (t : DynamicTable) (values : List Value) :
    (values.length ≠ t.column_info.length →
      add_row t values = Except.error (Err.arityMismatch, t)) ∧
    (values.length = t.column_info.length →
      (∀ i, i < t.column_info.length →
        (∀ j, j < i → isinst (values.getD j Value.none)
            ((t.column_info.getD j ("", ColumnType.str)).2) = true) →
        isinst (values.getD i Value.none)
            ((t.column_info.getD i ("", ColumnType.str)).2) = false →
        add_row t values = Except.error
          (Err.typeMismatch ((t.column_info.getD i ("", ColumnType.str)).1), t)) ∧
      ((∀ i, i < t.column_info.length →
          isinst (values.getD i Value.none)
            ((t.column_info.getD i ("", ColumnType.str)).2) = true) →
        add_row t values = Except.ok { t with rows := t.rows ++
          [dictFromPairs ((colNames t.column_info).zip values)] })) := by
  constructor
  · intro hne
    unfold add_row
    rw [if_pos hne]
  · intro hlen
    constructor
    · intro i hi hok hbad
      unfold add_row
      rw [if_neg (not_not_intro hlen),
        validateValues_error_first t.column_info values i hi hlen hok hbad]
    · intro hall
      unfold add_row
      rw [if_neg (not_not_intro hlen),
        validateValues_ok_of_all t.column_info values hlen hall]

theorem C2_add_row_validation_witness :
    add_row wt [Value.str "Bob"] = Except.error (Err.arityMismatch, wt) ∧
    add_row wt [Value.str "Bob", Value.str "x"] =
      Except.error (Err.typeMismatch "Age", wt) ∧
    add_row wt [Value.str "Bob", Value.int 30] = Except.ok
      { wt with rows := wt.rows ++
        [dictFromPairs ((colNames wt.column_info).zip
          [Value.str "Bob", Value.int 30])] } :=
  ⟨(C2_add_row_validation wt [Value.str "Bob"]).1 (by decide),
   ((C2_add_row_validation wt [Value.str "Bob", Value.str "x"]).2
      (by decide)).1 1 (by decide) (by decide) (by decide),
   ((C2_add_row_validation wt [Value.str "Bob", Value.int 30]).2
      (by decide)).2 (by decide)⟩

/-- C5 counterexample: the claim says a Boolean value at an Integer
column makes `add_row` fail with the type error and append nothing; on
the code it succeeds and appends the row, because Python's
`isinstance(True, int)` holds (`bool` subclasses `int`). -/
theorem C5_bool_in_int_counterexample :
    add_row (DynamicTable.mk [("Age", ColumnType.int)] []) [Value.bool true] =
      Except.ok (DynamicTable.mk [("Age", ColumnType.int)]
        [[("Age", Value.bool true)]]) := rfl

/-- C5 amended: on every table whose schema declares Integer at position
`i`, a Boolean value at position `i` passes the runtime-kind check for
that position (the check is Python `isinstance`, under which `bool` is a
subclass of `int`), and when every other position passes its check
`add_row` succeeds and appends the row, the Boolean stored in the
Integer column; the three-kind taxonomy is not closed in this
direction. -/
theorem C5_bool_in_int_amended (t : DynamicTable) (values : List Value)
    (i : Nat) (hlen : values.length = t.column_info.length)
    (hint : (t.column_info.getD i ("", ColumnType.str)).2 = ColumnType.int)
    (b : Bool) (hbool : values.getD i Value.none = Value.bool b)
    (hothers : ∀ j, j < t.column_info.length → j ≠ i →
      isinst (values.getD j Value.none)
        ((t.column_info.getD j ("", ColumnType.str)).2) = true) :
    isinst (values.getD i Value.none)
      ((t.column_info.getD i ("", ColumnType.str)).2) = true ∧
    add_row t values = Except.ok { t with rows := t.rows ++
      [dictFromPairs ((colNames t.column_info).zip values)] } := by
  have hi : isinst (values.getD i Value.none)
      ((t.column_info.getD i ("", ColumnType.str)).2) = true := by
    rw [hbool, hint]
    rfl
  refine ⟨hi, ?_⟩
  have hall : ∀ j, j < t.column_info.length →
      isinst (values.getD j Value.none)
        ((t.column_info.getD j ("", ColumnType.str)).2) = true := by
    intro j hj
    by_cases hji : j = i
    · subst hji
      exact hi
    · exact hothers j hj hji
  unfold add_row
  rw [if_neg (not_not_intro hlen),
    validateValues_ok_of_all t.column_info values hlen hall]

theorem C5_bool_in_int_amended_witness :
    isinst ([Value.str "Bob", Value.bool true].getD 1 Value.none)
        ((wt.column_info.getD 1 ("", ColumnType.str)).2) = true ∧
    add_row wt [Value.str "Bob", Value.bool true] = Except.ok
      { wt with rows := wt.rows ++
        [dictFromPairs ((colNames wt.column_info).zip
          [Value.str "Bob", Value.bool true])] } :=
  C5_bool_in_int_amended wt [Value.str "Bob", Value.bool true] 1 (by decide)
    (by decide) true (by decide) (by decide)

/-- C6: the claim says `deleteRow` with index `-1` (and any index outside
`[0, rowCount)`) fails with the index error leaving the rows unchanged;
on the code, `del rows[-1]` interprets the negative index from the end of
the list, so on a one-row table it deletes the last row and succeeds,
while `rowCount` and beyond do fail. -/
theorem C6_delete_row_negative_index_bug :
    delete_row wt (-1) = Except.ok (DynamicTable.mk
      [("Name", ColumnType.str), ("Age", ColumnType.int)] []) ∧
    delete_row wt 1 = Except.error (Err.indexOutOfRange, wt) ∧
    delete_row wt 2 = Except.error (Err.indexOutOfRange, wt) :=
  ⟨rfl, rfl, rfl⟩

theorem eraseFirstCol_append_self (ci : List (String × ColumnType))
    (n : String) (ty : ColumnType) (hn : n ∉ colNames ci) :
    eraseFirstCol (ci ++ [(n, ty)]) n = ci := by
  induction ci with
  | nil => simp [eraseFirstCol]
  | cons c cs ih =>
    rw [colNames_cons, List.mem_cons, not_or] at hn
    obtain ⟨h1, h2⟩ := hn
    have hc : ¬ c.1 = n := fun hh => h1 hh.symm
    simp only [List.cons_append, eraseFirstCol, if_neg hc]
    exact congrArg (List.cons c) (ih h2)

/-- C9: on a conforming table, adding a fresh column and then removing it
restores the table exactly — the original schema (names, types, order)
and the very same rows, with no residual key. -/
theorem C9_column_round_trip (t : DynamicTable) (n : String)
    (ty : ColumnType) (h : tableInv t = true)
    (hn : n ∉ colNames t.column_info) :
    ∃ t₁, add_column t n ty = Except.ok t₁ ∧
      delete_column t₁ n = Except.ok t := by
  have hcon : ¬ (colNames t.column_info).contains n = true :=
    fun hc => hn ((contains_iff_mem _ _).1 hc)
  refine ⟨DynamicTable.mk (t.column_info ++ [(n, ty)])
      (t.rows.map (fun r => dictSet r n Value.none)), ?_, ?_⟩
  · unfold add_column
    rw [if_neg hcon]
  · have hmem : ∀ r ∈ t.rows.map (fun r => dictSet r n Value.none),
        n ∈ dictKeys r := by
      intro r hr
      obtain ⟨r₀, hr₀, rfl⟩ := List.mem_map.1 hr
      exact (mem_dictKeys_dictSet r₀ n Value.none n).2 (Or.inr rfl)
    have hcmem : n ∈ colNames (t.column_info ++ [(n, ty)]) := by
      rw [colNames_append]
      exact List.mem_append_right _ (by simp [colNames])
    unfold delete_column
    rw [if_pos ((contains_iff_mem _ _).2 hcmem), delColumnRows_ok n _ hmem]
    have hrows : (t.rows.map (fun r => dictSet r n Value.none)).map
        (fun r => dictDel r n) = t.rows := by
      rw [List.map_map]
      have hpt : ∀ r ∈ t.rows,
          ((fun r => dictDel r n) ∘ fun r => dictSet r n Value.none) r = id r := by
        intro r hr
        have hk : n ∉ dictKeys r :=
          fun hk => hn (((tableInv_iff t).1 h r hr n).1 hk)
        exact dictDel_dictSet_of_not_mem r n Value.none hk
      rw [List.map_congr_left hpt, List.map_id]
    rw [eraseFirstCol_append_self t.column_info n ty hn, hrows]

theorem C9_column_round_trip_witness :
    tableInv wt = true ∧ "Score" ∉ colNames wt.column_info ∧
    ∃ t₁, add_column wt "Score" ColumnType.int = Except.ok t₁ ∧
      delete_column t₁ "Score" = Except.ok wt :=
  ⟨by decide, by decide,
   C9_column_round_trip wt "Score" ColumnType.int (by decide) (by decide)⟩

/-! ### Deduplication semantics -/

theorem pyEq_iff (a b : Value) : pyEq a b = true ↔ canon a = canon b := by
  cases a <;> cases b <;> simp [pyEq, canon] <;>
    rename_i x y <;> cases x <;> cases y <;> simp

theorem tupEq_iff (a b : List Value) :
    tupEq a b = true ↔ a.map canon = b.map canon := by
  induction a generalizing b with
  | nil => cases b <;> simp [tupEq]
  | cons x xs ih =>
    cases b with
    | nil => simp [tupEq]
    | cons y ys =>
      simp [tupEq, Bool.and_eq_true, pyEq_iff, ih]

theorem seen_any_iff (seen : List (List Value)) (k : List Value) :
    seen.any (fun s => tupEq s k) = true ↔
      ∃ s ∈ seen, s.map canon = k.map canon := by
  rw [List.any_eq_true]
  constructor
  · rintro ⟨s, hs, ht⟩
    exact ⟨s, hs, (tupEq_iff s k).1 ht⟩
  · rintro ⟨s, hs, ht⟩
    exact ⟨s, hs, (tupEq_iff s k).2 ht⟩

theorem isDupOfEarlier_iff (ci : List (String × ColumnType))
    (prev : List Row) (r : Row) (k : List Value)
    (hk : rowTuple ci r = some k) :
    isDupOfEarlier ci prev r = true ↔
      ∃ p ∈ prev, ∃ a, rowTuple ci p = some a ∧
        a.map canon = k.map canon := by
  rw [isDupOfEarlier, List.any_eq_true]
  constructor
  · rintro ⟨p, hp, hm⟩
    refine ⟨p, hp, ?_⟩
    cases hpt : rowTuple ci p with
    | none =>
      rw [hpt, hk] at hm
      exact absurd (hm : false = true) (by simp)
    | some a =>
      rw [hpt, hk] at hm
      exact ⟨a, rfl, (tupEq_iff a k).1 hm⟩
  · rintro ⟨p, hp, a, hpt, hac⟩
    refine ⟨p, hp, ?_⟩
    rw [hpt, hk]
    exact (tupEq_iff a k).2 hac

theorem dedupAux_eq_firstOccAux (ci : List (String × ColumnType))
    (rows : List Row) (h : ∀ r ∈ rows, (rowTuple ci r).isSome = true)
    (seen : List (List Value)) (prev : List Row)
    (hsp : ∀ kc : List Canon,
      (∃ s ∈ seen, s.map canon = kc) ↔
      (∃ p ∈ prev, ∃ a, rowTuple ci p = some a ∧ a.map canon = kc)) :
    dedupAux ci seen rows = Except.ok (firstOccAux ci prev rows) := by
  induction rows generalizing seen prev with
  | nil => rfl
  | cons r rs ih =>
    obtain ⟨k, hk⟩ :=
      Option.isSome_iff_exists.1 (h r (List.mem_cons_self r rs))
    have hrest : ∀ x ∈ rs, (rowTuple ci x).isSome = true :=
      fun x hx => h x (List.mem_cons_of_mem r hx)
    have hdup : seen.any (fun s => tupEq s k) = true ↔
        isDupOfEarlier ci prev r = true :=
      (seen_any_iff seen k).trans
        ((hsp (k.map canon)).trans (isDupOfEarlier_iff ci prev r k hk).symm)
    by_cases hs : seen.any (fun s => tupEq s k) = true
    · have hd : isDupOfEarlier ci prev r = true := hdup.1 hs
      have hsp' : ∀ kc : List Canon,
          (∃ s ∈ seen, s.map canon = kc) ↔
          (∃ p ∈ prev ++ [r], ∃ a, rowTuple ci p = some a ∧
            a.map canon = kc) := by
        intro kc
        constructor
        · intro hex
          obtain ⟨p, hp, ha⟩ := (hsp kc).1 hex
          exact ⟨p, List.mem_append_left _ hp, ha⟩
        · rintro ⟨p, hp, a, hpt, hac⟩
          rcases List.mem_append.1 hp with hp | hp
          · exact (hsp kc).2 ⟨p, hp, a, hpt, hac⟩
          · rw [List.mem_singleton] at hp
            subst hp
            rw [hk] at hpt
            injection hpt with hpt
            obtain ⟨s, hss, hsc⟩ := (seen_any_iff seen k).1 hs
            exact ⟨s, hss, hsc.trans (hpt ▸ hac)⟩
      simp only [dedupAux, hk, if_pos hs, firstOccAux, if_pos hd]
      exact ih hrest seen (prev ++ [r]) hsp'
    · have hd : ¬ isDupOfEarlier ci prev r = true := fun hdd => hs (hdup.2 hdd)
      have hsp' : ∀ kc : List Canon,
          (∃ s ∈ k :: seen, s.map canon = kc) ↔
          (∃ p ∈ prev ++ [r], ∃ a, rowTuple ci p = some a ∧
            a.map canon = kc) := by
        intro kc
        constructor
        · rintro ⟨s, hss, hsc⟩
          rcases List.mem_cons.1 hss with rfl | hss
          · exact ⟨r, List.mem_append_right _ (List.mem_singleton_self r),
              s, hk, hsc⟩
          · obtain ⟨p, hp, ha⟩ := (hsp kc).1 ⟨s, hss, hsc⟩
            exact ⟨p, List.mem_append_left _ hp, ha⟩
        · rintro ⟨p, hp, a, hpt, hac⟩
          rcases List.mem_append.1 hp with hp | hp
          · obtain ⟨s, hss, hsc⟩ := (hsp kc).2 ⟨p, hp, a, hpt, hac⟩
            exact ⟨s, List.mem_cons_of_mem k hss, hsc⟩
          · rw [List.mem_singleton] at hp
            subst hp
            rw [hk] at hpt
            injection hpt with hpt
            exact ⟨k, List.mem_cons_self k seen, hpt ▸ hac⟩
      simp only [dedupAux, hk, if_neg hs, firstOccAux, if_neg hd]
      rw [ih hrest (k :: seen) (prev ++ [r]) hsp']

theorem dedupAux_sound (ci : List (String × ColumnType)) (rows : List Row)
    (seen : List (List Value)) (out : List Row)
    (ho : dedupAux ci seen rows = Except.ok out) :
    (∀ r ∈ out, ∀ k, rowTuple ci r = some k →
      seen.any (fun s => tupEq s k) = false) ∧
    List.Pairwise (fun r x => ∀ k k', rowTuple ci r = some k →
      rowTuple ci x = some k' → k.map canon ≠ k'.map canon) out := by
  induction rows generalizing seen out with
  | nil =>
    simp only [dedupAux] at ho
    injection ho with ho
    subst ho
    refine ⟨?_, List.Pairwise.nil⟩
    intro r hr
    cases hr
  | cons r rs ih =>
    cases hk : rowTuple ci r with
    | none =>
      simp only [dedupAux, hk] at ho
      cases ho
    | some k =>
      simp only [dedupAux, hk] at ho
      by_cases hs : seen.any (fun s => tupEq s k) = true
      · rw [if_pos hs] at ho
        exact ih seen out ho
      · rw [if_neg hs] at ho
        cases hrec : dedupAux ci (k :: seen) rs with
        | error e =>
          rw [hrec] at ho
          cases ho
        | ok out' =>
          rw [hrec] at ho
          injection ho with ho
          subst ho
          obtain ⟨havoid, hpw⟩ := ih (k :: seen) out' hrec
          constructor
          · intro x hx kx hkx
            rcases List.mem_cons.1 hx with rfl | hx
            · rw [hk] at hkx
              injection hkx with hkx
              subst hkx
              exact Bool.eq_false_iff.2 hs
            · have hfa := havoid x hx kx hkx
              simp only [List.any_cons, Bool.or_eq_false_iff] at hfa
              exact hfa.2
          · refine List.Pairwise.cons ?_ hpw
            intro x hx kx kx' hkx hkx'
            rw [hk] at hkx
            injection hkx with hkx
            subst hkx
            have hfa := havoid x hx kx' hkx'
            simp only [List.any_cons, Bool.or_eq_false_iff] at hfa
            intro hmap
            have hte : tupEq k kx' = true := (tupEq_iff k kx').2 hmap
            rw [hfa.1] at hte
            cases hte

theorem dedupAux_self (ci : List (String × ColumnType)) (l : List Row)
    (seen : List (List Value))
    (hkeys : ∀ r ∈ l, (rowTuple ci r).isSome = true)
    (hseen : ∀ r ∈ l, ∀ k, rowTuple ci r = some k →
      seen.any (fun s => tupEq s k) = false)
    (hpw : List.Pairwise (fun r x => ∀ k k', rowTuple ci r = some k →
      rowTuple ci x = some k' → k.map canon ≠ k'.map canon) l) :
    dedupAux ci seen l = Except.ok l := by
  induction l generalizing seen with
  | nil => rfl
  | cons r rs ih =>
    obtain ⟨k, hk⟩ :=
      Option.isSome_iff_exists.1 (hkeys r (List.mem_cons_self r rs))
    have hs : seen.any (fun s => tupEq s k) = false :=
      hseen r (List.mem_cons_self r rs) k hk
    rw [List.pairwise_cons] at hpw
    obtain ⟨hhead, hpw'⟩ := hpw
    have hseen' : ∀ x ∈ rs, ∀ kx, rowTuple ci x = some kx →
        (k :: seen).any (fun s => tupEq s kx) = false := by
      intro x hx kx hkx
      simp only [List.any_cons, Bool.or_eq_false_iff]
      constructor
      · cases htk : tupEq k kx with
        | false => rfl
        | true =>
          exact absurd ((tupEq_iff k kx).1 htk) (hhead x hx k kx hk hkx)
      · exact hseen x (List.mem_cons_of_mem r hx) kx hkx
    have hrec := ih (k :: seen)
      (fun x hx => hkeys x (List.mem_cons_of_mem r hx)) hseen' hpw'
    simp only [dedupAux, hk, if_neg (by simp [hs] :
      ¬ seen.any (fun s => tupEq s k) = true), hrec]

/-- C4 counterexample: the claim's first-occurrence rule, with tuple
equality as the spec defines it — structural over the typed values,
cross-kind unequal — fails on a key-conforming table whose Integer
column holds the Boolean `True` in one row and the Integer `1` in
another (reachable through `add_row`): the code's dedup drops the
second row because Python `==` makes the tuples equal, while the spec's
structural first-occurrence rule keeps both rows. -/
theorem C4_structural_dedup_counterexample :
    tableInv tmix = true ∧
    remove_duplicates tmix = Except.ok
      (DynamicTable.mk [("Age", ColumnType.int)]
        [[("Age", Value.bool true)]]) ∧
    structFirstOccurrences tmix.column_info tmix.rows =
      [[("Age", Value.bool true)], [("Age", Value.int 1)]] ∧
    [[("Age", Value.bool true)]] ≠
      [[("Age", Value.bool true)], [("Age", Value.int 1)]] :=
  ⟨rfl, rfl, rfl, by decide⟩

/-- C4 amended: on a conforming table `remove_duplicates` succeeds and
its result is exactly `firstOccurrences`: the first occurrence of each
distinct tuple of row values in schema-column order is kept, later
occurrences are dropped, and the relative order of kept rows is
preserved — with tuple distinctness judged by Python `==` (under which
Boolean `true` equals Integer `1`), not the spec's structural equality;
running `remove_duplicates` again on the result returns it unchanged
(idempotence). -/
theorem C4_remove_duplicates_first_occurrence (t : DynamicTable)
    (h : tableInv t = true) :
    remove_duplicates t =
      Except.ok { t with rows := firstOccurrences t.column_info t.rows } ∧
    remove_duplicates
        { t with rows := firstOccurrences t.column_info t.rows } =
      Except.ok { t with rows := firstOccurrences t.column_info t.rows } := by
  have hk : ∀ r ∈ t.rows, (rowTuple t.column_info r).isSome = true := by
    intro r hr
    apply rowTuple_isSome
    intro c hc
    exact ((tableInv_iff t).1 h r hr c.1).2 (List.mem_map_of_mem Prod.fst hc)
  have htriv : ∀ kc : List Canon,
      (∃ s ∈ ([] : List (List Value)), s.map canon = kc) ↔
      (∃ p ∈ ([] : List Row), ∃ a, rowTuple t.column_info p = some a ∧
        a.map canon = kc) := by
    intro kc
    simp
  have heq := dedupAux_eq_firstOccAux t.column_info t.rows hk [] [] htriv
  have hfo : firstOccurrences t.column_info t.rows =
      firstOccAux t.column_info [] t.rows := rfl
  constructor
  · rw [hfo]
    simp only [remove_duplicates, heq]
  · obtain ⟨hav, hpw⟩ := dedupAux_sound t.column_info t.rows [] _ heq
    obtain ⟨out₂, ho₂, hsub⟩ := dedupAux_ok t.column_info t.rows hk []
    have hout : firstOccAux t.column_info [] t.rows = out₂ := by
      rw [heq] at ho₂
      injection ho₂ with ho₂
    have hkeys' : ∀ r ∈ firstOccAux t.column_info [] t.rows,
        (rowTuple t.column_info r).isSome = true := by
      intro r hr
      rw [hout] at hr
      exact hk r (hsub.mem hr)
    have hself := dedupAux_self t.column_info
      (firstOccAux t.column_info [] t.rows) [] hkeys'
      (fun r _ k _ => rfl) hpw
    rw [hfo]
    simp only [remove_duplicates, hself]

theorem C4_remove_duplicates_first_occurrence_witness :
    remove_duplicates wtd =
      Except.ok { wtd with rows := firstOccurrences wtd.column_info wtd.rows } ∧
    remove_duplicates
        { wtd with rows := firstOccurrences wtd.column_info wtd.rows } =
      Except.ok { wtd with rows := firstOccurrences wtd.column_info wtd.rows } :=
  C4_remove_duplicates_first_occurrence wtd (by decide)

/-- C10: on a conforming table `remove_duplicates` always succeeds (the
only raise site, the key lookup building each row's tuple, cannot fire),
and it modifies only the row sequence: the schema — column names, types
and their order — of the result is exactly that of the input. -/
theorem C10_remove_duplicates_frame (t : DynamicTable)
    (h : tableInv t = true) :
    (remove_duplicates t).isOk = true ∧
    ∀ t', remove_duplicates t = Except.ok t' →
      t'.column_info = t.column_info := by
  obtain ⟨out, ho, _⟩ := remove_duplicates_ok t h
  constructor
  · rw [ho]
    rfl
  · intro t' ht'
    rw [ho] at ht'
    injection ht' with ht'
    rw [← ht']

theorem C10_remove_duplicates_frame_witness :
    (remove_duplicates wtd).isOk = true ∧
    (DynamicTable.mk [("Name", ColumnType.str), ("Age", ColumnType.int)]
      [[("Name", Value.str "Alice"), ("Age", Value.int 25)],
       [("Name", Value.str "Bob"), ("Age", Value.int 30)]]).column_info =
      wtd.column_info :=
  ⟨(C10_remove_duplicates_frame wtd (by decide)).1,
   (C10_remove_duplicates_frame wtd (by decide)).2 _ rfl⟩

/-! ### Text-to-typed-value conversion claims -/

/-- C7 counterexample: on the text `" true"` the claimed rule (trim,
then case-insensitive comparison) yields `true`, but the code
(`value.lower() == "true"`, with no trimming) converts it to `false`. -/
theorem C7_bool_conversion_counterexample :
    convert_values [("Flag", ColumnType.bool)] [" true"] =
      Except.ok [Value.bool false] ∧
    specBoolRule " true" = true := by
  exact ⟨rfl, rfl⟩

/-- C7 amended: the Boolean conversion never fails and yields `true`
exactly when the text equals `"true"` case-insensitively — with NO
whitespace trimming (`value.lower() == "true"` on the raw text); every
other text, surrounding whitespace included, converts to `false`. -/
theorem C7_bool_conversion_amended (s : String) :
    (convert_values [("Flag", ColumnType.bool)] [s] =
        Except.ok [Value.bool true] ↔
      s.toList.map Char.toLower = ['t', 'r', 'u', 'e']) ∧
    (convert_values [("Flag", ColumnType.bool)] [s] =
        Except.ok [Value.bool true] ∨
      convert_values [("Flag", ColumnType.bool)] [s] =
        Except.ok [Value.bool false]) := by
  have hchar : (pyLower s = "true") ↔
      (s.toList.map Char.toLower = ['t', 'r', 'u', 'e']) := by
    constructor
    · intro hh
      exact congrArg String.data hh
    · intro hh
      show String.mk (s.toList.map Char.toLower) = "true"
      rw [hh]
  have hconv : convert_values [("Flag", ColumnType.bool)] [s] =
      Except.ok [Value.bool (pyLower s = "true")] := rfl
  constructor
  · rw [hconv]
    simp only [Except.ok.injEq, List.cons.injEq, and_true, Value.bool.injEq,
      decide_eq_true_eq]
    exact hchar
  · by_cases h : pyLower s = "true"
    · left
      rw [hconv]
      simp [h]
    · right
      rw [hconv]
      simp [h]

theorem isPySpace_of_digit (c : Char) (h : c.isDigit = true) :
    isPySpace c = false := by
  rw [Bool.eq_false_iff]
  intro hs
  simp only [isPySpace, decide_eq_true_eq] at hs
  rcases hs with rfl | rfl | rfl | rfl | rfl | rfl <;>
    exact absurd h (by decide)

theorem dropWhile_eq_self_of_all (m : List Char)
    (hm : ∀ c ∈ m, isPySpace c = false) : m.dropWhile isPySpace = m := by
  cases m with
  | nil => rfl
  | cons x xs => simp [List.dropWhile_cons, hm x (List.mem_cons_self x xs)]

theorem pyStripChars_eq_self (l : List Char)
    (h : ∀ c ∈ l, isPySpace c = false) : pyStripChars l = l := by
  unfold pyStripChars
  rw [dropWhile_eq_self_of_all l h,
    dropWhile_eq_self_of_all l.reverse (fun c hc => h c (List.mem_reverse.1 hc)),
    List.reverse_reverse]

theorem pyDigitsGo_all_digits (l : List Char) (acc : Nat)
    (h : ∀ c ∈ l, c.isDigit = true) :
    pyDigitsGo acc l =
      some (l.foldl (fun a c => 10 * a + (c.toNat - 48)) acc) := by
  induction l generalizing acc with
  | nil => rfl
  | cons c cs ih =>
    have hc : c.isDigit = true := h c (List.mem_cons_self c cs)
    rw [pyDigitsGo.eq_def]
    simp only [if_pos hc, List.foldl_cons]
    exact ih _ (fun x hx => h x (List.mem_cons_of_mem c hx))

theorem pyDigits_all_digits (l : List Char) (hne : l ≠ [])
    (h : ∀ c ∈ l, c.isDigit = true) :
    pyDigits l = some (l.foldl (fun a c => 10 * a + (c.toNat - 48)) 0) := by
  cases l with
  | nil => exact absurd rfl hne
  | cons c cs =>
    have hc : c.isDigit = true := h c (List.mem_cons_self c cs)
    simp only [pyDigits, if_pos hc,
      pyDigitsGo_all_digits cs _ (fun x hx => h x (List.mem_cons_of_mem c hx)),
      List.foldl_cons]
    simp

theorem pyInt_digits (l : List Char) (hne : l ≠ [])
    (h : ∀ c ∈ l, c.isDigit = true) :
    pyInt (String.mk l) =
      some ((l.foldl (fun a c => 10 * a + (c.toNat - 48)) 0 : Nat) : Int) := by
  have hstrip : pyStripChars (String.mk l).toList = l :=
    pyStripChars_eq_self l (fun c hc => isPySpace_of_digit c (h c hc))
  cases l with
  | nil => exact absurd rfl hne
  | cons c cs =>
    have hc : c.isDigit = true := h c (List.mem_cons_self c cs)
    have hplus : ¬ c = '+' := by
      intro hh
      subst hh
      exact absurd hc (by decide)
    have hminus : ¬ c = '-' := by
      intro hh
      subst hh
      exact absurd hc (by decide)
    unfold pyInt
    rw [hstrip]
    simp only [if_neg hplus, if_neg hminus,
      pyDigits_all_digits (c :: cs) hne h, Option.map_some']
    rfl

theorem pyInt_neg_digits (l : List Char) (hne : l ≠ [])
    (h : ∀ c ∈ l, c.isDigit = true) :
    pyInt (String.mk ('-' :: l)) =
      some (-((l.foldl (fun a c => 10 * a + (c.toNat - 48)) 0 : Nat) : Int)) := by
  have hstrip : pyStripChars (String.mk ('-' :: l)).toList = '-' :: l := by
    apply pyStripChars_eq_self
    intro c hc
    rcases List.mem_cons.1 hc with rfl | hc
    · decide
    · exact isPySpace_of_digit c (h c hc)
  unfold pyInt
  rw [hstrip]
  simp only [if_neg (by decide : ¬ '-' = '+'), if_pos rfl,
    pyDigits_all_digits l hne h, Option.map_some']
  simp

/-- C8: the Integer conversion in `convert_values` is Python `int(text)`:
on success it returns the parsed base-10 integer (witnessed on digit
strings, with or without a leading minus sign, by the standard positional
value), and on any text `int` rejects it fails with the typed
`ConversionError` (the `ValueError` raise site inside `convert_values`,
caught by the mutation handlers), not a crash. -/
theorem C8_int_conversion (s : String) :
    (∀ n : Int, pyInt s = some n →
      convert_values [("Age", ColumnType.int)] [s] =
        Except.ok [Value.int n]) ∧
    (pyInt s = Option.none →
      convert_values [("Age", ColumnType.int)] [s] =
        Except.error Err.conversionError) ∧
    (∀ l : List Char, l ≠ [] → (∀ c ∈ l, c.isDigit = true) →
      pyInt (String.mk l) =
        some ((l.foldl (fun a c => 10 * a + (c.toNat - 48)) 0 : Nat) : Int) ∧
      pyInt (String.mk ('-' :: l)) =
        some (-((l.foldl (fun a c => 10 * a + (c.toNat - 48)) 0 : Nat) : Int))) := by
  refine ⟨?_, ?_, ?_⟩
  · intro n hn
    simp only [convert_values, hn]
  · intro hn
    simp only [convert_values, hn]
  · intro l hne h
    exact ⟨pyInt_digits l hne h, pyInt_neg_digits l hne h⟩

theorem C8_int_conversion_witness :
    convert_values [("Age", ColumnType.int)] ["25"] =
      Except.ok [Value.int 25] ∧
    convert_values [("Age", ColumnType.int)] ["x2"] =
      Except.error Err.conversionError ∧
    pyInt (String.mk ['2', '5']) = some 25 :=
  ⟨(C8_int_conversion "25").1 25 (by decide),
   (C8_int_conversion "x2").2.1 (by decide),
   ((C8_int_conversion "25").2.2 ['2', '5'] (by decide) (by decide)).1.trans
     (by decide)⟩
